import Mathlib

/-!
Verification of the step-down price-recovery engine.

The repository contains two variants of the engine:
* `src/index.js` — price increment is the literal `10`, tracked deals are a
  `Set` of deal ids, and the start of a deal is persisted remotely by setting
  the metaobject field `wtf_pricing_started` to `"true"`.
* `src/unnamed/part_000` — price increment is the constant
  `priceIncrement = 9.99`, tracked deals are an object mapping deal id to a
  completion flag, and no remote start marker is written.

Prices arrive from the gateway as strings and are parsed with `parseFloat`;
we model the parse result directly as `Option ℚ` (`none` models `NaN`, and a
JavaScript comparison `a < b` is `false` whenever either side is `NaN`).
Decimal prices are modelled as exact rationals, matching the specification's
decimal (two-digit precision) numeric semantics.
-/

/-- Outcome of one gateway mutation request, as distinguished by the source:
a successful payload, a thrown transport error, a GraphQL-level `errors`
payload, or a field-level `userErrors` payload. -/
inductive MutationResult where
  | ok
  | transportError
  | graphqlErrors
  | userErrors
deriving DecidableEq

/-- A product variant as returned by `FETCH_PRODUCT_QUERY`, with its string
prices already passed through `parseFloat` (`none` models `NaN`). -/
structure Variant where
  id : String
  price : Option ℚ
  compareAtPrice : Option ℚ
deriving DecidableEq

/-- A product as returned by `FETCH_PRODUCT_QUERY`. -/
structure Product where
  id : String
  title : String
  variants : List Variant
deriving DecidableEq

/-- Result of one `incrementVariantPrice` call: the price sent in the
`productVariantUpdate` mutation (if one was issued), the boolean the function
returns, and the remote price after the call (unchanged unless the mutation
succeeded). -/
structure StepResult where
  mutation : Option ℚ
  isComplete : Bool
  postPrice : Option ℚ
deriving DecidableEq

/-- The new price computed in `incrementVariantPrice` (lines 196–199 of
`src/index.js`, lines 144–147 of `src/unnamed/part_000`):
`priceDifference < increment ? compareAtPrice : Math.min(currentPrice + increment, compareAtPrice)`. -/
def nextPrice (increment currentPrice compareAtPrice : ℚ) : ℚ :=
  if compareAtPrice - currentPrice < increment then compareAtPrice
  else min (currentPrice + increment) compareAtPrice

/-- The body of `incrementVariantPrice` for numeric (non-`NaN`) prices.
If `currentPrice < compareAtPrice` the mutation is issued with `nextPrice`;
on success the function returns `newPrice === compareAtPrice` and the remote
price becomes `newPrice`; on any error it returns `false` and the remote
price is unchanged.  Otherwise no mutation is issued and it returns `true`. -/
def stepNumeric (increment currentPrice compareAtPrice : ℚ)
    (outcome : MutationResult) : StepResult :=
  if currentPrice < compareAtPrice then
    match outcome with
    | MutationResult.ok =>
        { mutation := some (nextPrice increment currentPrice compareAtPrice)
          isComplete := decide (nextPrice increment currentPrice compareAtPrice = compareAtPrice)
          postPrice := some (nextPrice increment currentPrice compareAtPrice) }
    | _ =>
        { mutation := some (nextPrice increment currentPrice compareAtPrice)
          isComplete := false
          postPrice := some currentPrice }
  else { mutation := none, isComplete := true, postPrice := some currentPrice }

/-- `incrementVariantPrice(variant)` from both sources, with the increment as
the configuration parameter the specification names.  When either parsed
price is `NaN` (`none`), the JavaScript guard `currentPrice < compareAtPrice`
is `false`, so no mutation is issued and the function returns `true`. -/
def incrementVariantPrice (increment : ℚ) (variant : Variant)
    (outcome : MutationResult) : StepResult :=
  match variant.price, variant.compareAtPrice with
  | some currentPrice, some compareAtPrice =>
      stepNumeric increment currentPrice compareAtPrice outcome
  | _, _ => { mutation := none, isComplete := true, postPrice := variant.price }

/-- The increment constant of `src/unnamed/part_000` (`priceIncrement = 9.99`). -/
def priceIncrement : ℚ := 999 / 100

/-- The gateway's answer to a product fetch: a payload, a GraphQL-level
`errors` list, or a thrown transport error. -/
inductive FetchResult (α : Type) where
  | ok (value : α)
  | graphqlErrors
  | transportError
deriving DecidableEq

/-- The list of stepper calls performed by the variant loop of
`adjustProductPrices`: every variant of the product is stepped, in order,
regardless of the outcomes of the other variants' mutations. -/
def variantSteps (increment : ℚ) (product : Product)
    (outcomes : String → MutationResult) : List StepResult :=
  product.variants.map fun v => incrementVariantPrice increment v (outcomes v.id)

/-- `adjustProductPrices(productId, dealId)` from both sources: `false` on a
GraphQL-level error payload or a thrown transport error; otherwise the loop
`let allVariantsComplete = true; for (...) if (!isVariantComplete) allVariantsComplete = false`,
i.e. a left fold of boolean AND over the stepper results. -/
def adjustProductPrices (increment : ℚ) (fetch : FetchResult Product)
    (outcomes : String → MutationResult) : Bool :=
  match fetch with
  | FetchResult.ok product =>
      (variantSteps increment product outcomes).foldl
        (fun allComplete r => allComplete && r.isComplete) true
  | _ => false

/-- One deal record from `FETCH_DEALS_QUERY`: an id and a key/value field list. -/
structure Deal where
  id : String
  fields : List (String × String)
deriving DecidableEq

/-- The field map built by `deal.node.fields.reduce(...)`: a later entry for
the same key overwrites an earlier one. -/
def fieldValue (fields : List (String × String)) (key : String) : Option String :=
  fields.foldl (fun acc kv => if kv.1 = key then some kv.2 else acc) none

/-- The gateway and clock environment one polling cycle runs against:
`parseDate` models `new Date(string)` (`none` is an invalid date, epoch
milliseconds otherwise), `now` models `new Date()`, `productFetch` the answer
to `FETCH_PRODUCT_QUERY`, and `mutationOutcome` the per-variant answer to
`UPDATE_PRODUCT_VARIANT_MUTATION`. -/
structure GatewayEnv where
  parseDate : String → Option Int
  now : Int
  productFetch : String → FetchResult Product
  mutationOutcome : String → MutationResult

/-- The guard `new Date(fields.start_time) <= new Date()`: an absent field or
an invalid date compares `false` (JavaScript `NaN` comparison). -/
def startTimeOk (env : GatewayEnv) (fields : List (String × String)) : Bool :=
  match fieldValue fields "start_time" with
  | none => false
  | some s =>
      match env.parseDate s with
      | none => false
      | some t => decide (t ≤ env.now)

/-- `adjustProductPrices(fields.product, dealId)` as invoked from the scan
loop: an absent `product` field makes the fetch fail (the code dereferences a
`null` product and the surrounding `catch` returns `false`). -/
def dealAdjustResult (increment : ℚ) (env : GatewayEnv)
    (fields : List (String × String)) : Bool :=
  match fieldValue fields "product" with
  | none => false
  | some productId =>
      adjustProductPrices increment (env.productFetch productId) env.mutationOutcome

/-- Result of processing one deal record in `src/index.js`: the new tracked
set and whether the `updateDeal` start-marker mutation was issued. -/
structure ScanOut where
  tracker : Finset String
  startIssued : Bool
deriving DecidableEq

/-- The eligibility guard of `src/index.js` lines 99–104:
`fields.wtf_pricing === "true" && new Date(fields.start_time) <= new Date()
&& fields.wtf_pricing_started !== "true" && !trackedDeals.has(id)`. -/
def eligibleIndex (env : GatewayEnv) (tracked : Finset String) (deal : Deal) : Bool :=
  decide (fieldValue deal.fields "wtf_pricing" = some "true") &&
  startTimeOk env deal.fields &&
  !(decide (fieldValue deal.fields "wtf_pricing_started" = some "true")) &&
  !(decide (deal.id ∈ tracked))

/-- The body of the per-deal loop of `fetchAndProcessDeals` in
`src/index.js` (lines 93–122): when eligible, issue `updateDeal` and add the
id to the tracked set; then, when tracked, run `adjustProductPrices` (with
the literal increment `10`) and delete the entry on completion. -/
def processDealIndex (env : GatewayEnv) (tracked : Finset String) (deal : Deal) :
    ScanOut :=
  let eligible := eligibleIndex env tracked deal
  let tracked1 := if eligible then insert deal.id tracked else tracked
  if deal.id ∈ tracked1 then
    if dealAdjustResult 10 env deal.fields then
      { tracker := tracked1.erase deal.id, startIssued := eligible }
    else { tracker := tracked1, startIssued := eligible }
  else { tracker := tracked1, startIssued := eligible }

/-- The tracker of `src/unnamed/part_000`: an object mapping deal id to a
completion flag (`false` while recovery is in progress, `true` once done). -/
def TrackerB : Type := List (String × Bool)

/-- Read a key from the part_000 tracker object. -/
def trackerGet : TrackerB → String → Option Bool
  | [], _ => none
  | (k, w) :: rest, id => if k = id then some w else trackerGet rest id

/-- Assign a key in the part_000 tracker object (`trackedDeals[id] = v`). -/
def trackerSet : TrackerB → String → Bool → TrackerB
  | [], id, v => [(id, v)]
  | (k, w) :: rest, id, v =>
      if k = id then (k, v) :: rest else (k, w) :: trackerSet rest id v

/-- The body of the per-deal loop of `fetchAndProcessDeals` in
`src/unnamed/part_000` (lines 77–102): when the pricing flag is `"true"`, the
start time has passed and the deal has no entry, create an entry with flag
`false`; then, when the entry exists with flag `false`, run
`adjustProductPrices` (with `priceIncrement`) and set the flag to `true` on
completion.  No remote start-marker mutation exists in this variant. -/
def processDealPart (env : GatewayEnv) (tracked : TrackerB) (deal : Deal) :
    TrackerB :=
  let eligible :=
    decide (fieldValue deal.fields "wtf_pricing" = some "true") &&
    startTimeOk env deal.fields &&
    (trackerGet tracked deal.id).isNone
  let tracked1 := if eligible then trackerSet tracked deal.id false else tracked
  if trackerGet tracked1 deal.id = some false then
    if dealAdjustResult priceIncrement env deal.fields then
      trackerSet tracked1 deal.id true
    else tracked1
  else tracked1

/-- The price of one managed variant across successive polling cycles, with
target `target` and the cycle-`n` mutation answered by `outcomes n`: each
cycle re-reads the price left by the previous cycle and applies
`incrementVariantPrice` to it. -/
def tracePrice (increment target : ℚ) (outcomes : Nat → MutationResult)
    (p0 : ℚ) : Nat → ℚ
  | 0 => p0
  | n + 1 =>
      ((incrementVariantPrice increment
          ⟨"variant", some (tracePrice increment target outcomes p0 n), some target⟩
          (outcomes n)).postPrice).getD (tracePrice increment target outcomes p0 n)

/-- Rounding to two decimal places, as applied by `toFixed(2)` before the
price is sent. -/
def round2 (q : ℚ) : ℚ := (round (q * 100) : ℤ) / 100

/-- A value is an exact two-decimal amount (a whole number of cents). -/
def Cents (q : ℚ) : Prop := ∃ n : ℤ, q = (n : ℚ) / 100

/-- The variant has reached its recovery target after this stepper call: its
compare-at price parsed, and the price left on the remote side is at least
that target. -/
def reachedTarget (increment : ℚ) (variant : Variant)
    (outcome : MutationResult) : Prop :=
  ∃ target post, variant.compareAtPrice = some target ∧
    (incrementVariantPrice increment variant outcome).postPrice = some post ∧
    target ≤ post

example : (incrementVariantPrice priceIncrement ⟨"v", some 80, some 100⟩
    MutationResult.ok).mutation = some (8999 / 100) := by
  norm_num [incrementVariantPrice, stepNumeric, nextPrice, priceIncrement]

example : (incrementVariantPrice 10 ⟨"v", some 100, some 100⟩
    MutationResult.ok).mutation = none := by
  norm_num [incrementVariantPrice, stepNumeric, nextPrice]

/-! ## Helper lemmas -/

theorem nextPrice_le (increment cur cmp : ℚ) : nextPrice increment cur cmp ≤ cmp := by
  unfold nextPrice
  split
  · exact le_refl cmp
  · exact min_le_right _ _

theorem le_nextPrice (increment cur cmp : ℚ) (hinc : 0 ≤ increment)
    (h : cur ≤ cmp) : cur ≤ nextPrice increment cur cmp := by
  unfold nextPrice
  split
  · exact h
  · exact le_min (by linarith) h

theorem nextPrice_of_lt_increment (increment cur cmp : ℚ)
    (h : cmp - cur < increment) : nextPrice increment cur cmp = cmp := by
  unfold nextPrice
  exact if_pos h

theorem nextPrice_of_increment_le (increment cur cmp : ℚ)
    (h : ¬ cmp - cur < increment) : nextPrice increment cur cmp = cur + increment := by
  unfold nextPrice
  rw [if_neg h]
  exact min_eq_left (by linarith [not_lt.mp h])

theorem incrementVariantPrice_numeric (increment cur cmp : ℚ) (vid : String)
    (o : MutationResult) :
    incrementVariantPrice increment ⟨vid, some cur, some cmp⟩ o =
      stepNumeric increment cur cmp o := rfl

theorem stepNumeric_of_not_lt (increment cur cmp : ℚ) (o : MutationResult)
    (h : ¬ cur < cmp) :
    stepNumeric increment cur cmp o =
      { mutation := none, isComplete := true, postPrice := some cur } := by
  unfold stepNumeric
  exact if_neg h

theorem stepNumeric_ok (increment cur cmp : ℚ) (h : cur < cmp) :
    stepNumeric increment cur cmp MutationResult.ok =
      { mutation := some (nextPrice increment cur cmp)
        isComplete := decide (nextPrice increment cur cmp = cmp)
        postPrice := some (nextPrice increment cur cmp) } := by
  unfold stepNumeric
  rw [if_pos h]

theorem stepNumeric_fail (increment cur cmp : ℚ) (o : MutationResult)
    (h : cur < cmp) (ho : o ≠ MutationResult.ok) :
    stepNumeric increment cur cmp o =
      { mutation := some (nextPrice increment cur cmp)
        isComplete := false
        postPrice := some cur } := by
  unfold stepNumeric
  rw [if_pos h]
  cases o with
  | ok => exact absurd rfl ho
  | transportError => rfl
  | graphqlErrors => rfl
  | userErrors => rfl

theorem foldl_and_eq_all {α : Type} (p : α → Bool) (l : List α) (acc : Bool) :
    l.foldl (fun a r => a && p r) acc = (acc && l.all p) := by
  induction l generalizing acc with
  | nil => simp
  | cons x xs ih => simp [ih, Bool.and_assoc]

theorem adjustProductPrices_ok (increment : ℚ) (product : Product)
    (outcomes : String → MutationResult) :
    adjustProductPrices increment (FetchResult.ok product) outcomes =
      product.variants.all
        (fun v => (incrementVariantPrice increment v (outcomes v.id)).isComplete) := by
  have hdef : adjustProductPrices increment (FetchResult.ok product) outcomes =
      (variantSteps increment product outcomes).foldl
        (fun allComplete r => allComplete && r.isComplete) true := rfl
  rw [hdef, foldl_and_eq_all, Bool.true_and]
  unfold variantSteps
  induction product.variants with
  | nil => rfl
  | cons x xs ih => simp [ih]

theorem isComplete_iff_reachedTarget (increment : ℚ) (v : Variant)
    (o : MutationResult) (cur cmp : ℚ) (hp : v.price = some cur)
    (hc : v.compareAtPrice = some cmp) :
    ((incrementVariantPrice increment v o).isComplete = true ↔
      reachedTarget increment v o) := by
  obtain ⟨vid, vp, vc⟩ := v
  have hp' : vp = some cur := hp
  have hc' : vc = some cmp := hc
  subst hp'
  subst hc'
  unfold reachedTarget
  rw [incrementVariantPrice_numeric]
  by_cases h : cur < cmp
  · by_cases ho : o = MutationResult.ok
    · subst ho
      rw [stepNumeric_ok increment cur cmp h]
      dsimp only
      constructor
      · intro hcomp
        exact ⟨cmp, nextPrice increment cur cmp, rfl, rfl,
          le_of_eq (of_decide_eq_true hcomp).symm⟩
      · rintro ⟨t, post, ht, hpost, hle⟩
        injection ht with ht
        injection hpost with hpost
        subst ht
        subst hpost
        exact decide_eq_true (le_antisymm (nextPrice_le increment cur cmp) hle)
    · rw [stepNumeric_fail increment cur cmp o h ho]
      dsimp only
      constructor
      · intro hcomp
        exact Bool.noConfusion hcomp
      · rintro ⟨t, post, ht, hpost, hle⟩
        injection ht with ht
        injection hpost with hpost
        subst ht
        subst hpost
        exact absurd hle (not_le.mpr h)
  · rw [stepNumeric_of_not_lt increment cur cmp o h]
    dsimp only
    constructor
    · intro _
      exact ⟨cmp, cur, rfl, rfl, not_lt.mp h⟩
    · intro _
      rfl

theorem trackerGet_set_self (t : TrackerB) (id : String) (v : Bool) :
    trackerGet (trackerSet t id v) id = some v := by
  induction t with
  | nil => simp [trackerSet, trackerGet]
  | cons kv rest ih =>
      obtain ⟨k, w⟩ := kv
      by_cases hk : k = id
      · simp [trackerSet, trackerGet, hk]
      · simp [trackerSet, trackerGet, hk, ih]

theorem trackerGet_set_other (t : TrackerB) (id id' : String) (v : Bool)
    (h : id' ≠ id) : trackerGet (trackerSet t id v) id' = trackerGet t id' := by
  induction t with
  | nil =>
      have hne : ¬ id = id' := fun hx => h hx.symm
      simp [trackerSet, trackerGet, hne]
  | cons kv rest ih =>
      obtain ⟨k, w⟩ := kv
      have hne : ¬ id = id' := fun hx => h hx.symm
      by_cases hk : k = id
      · simp [trackerSet, trackerGet, hk, hne]
      · by_cases hk' : k = id'
        · simp [trackerSet, trackerGet, hk, hk', h]
        · simp [trackerSet, trackerGet, hk, hk', ih]

theorem processDealIndex_startIssued (env : GatewayEnv) (tracked : Finset String)
    (deal : Deal) :
    (processDealIndex env tracked deal).startIssued = eligibleIndex env tracked deal := by
  unfold processDealIndex
  dsimp only
  repeat' split
  all_goals rfl

theorem eligibleIndex_of_tracked (env : GatewayEnv) (tracked : Finset String)
    (deal : Deal) (h : deal.id ∈ tracked) :
    eligibleIndex env tracked deal = false := by
  unfold eligibleIndex
  simp [h]

theorem processDealIndex_tracked (env : GatewayEnv) (tracked : Finset String)
    (deal : Deal) (h : deal.id ∈ tracked) :
    processDealIndex env tracked deal =
      if dealAdjustResult 10 env deal.fields then
        { tracker := tracked.erase deal.id, startIssued := false }
      else { tracker := tracked, startIssued := false } := by
  unfold processDealIndex
  rw [eligibleIndex_of_tracked env tracked deal h]
  simp only [Bool.false_eq_true, if_false, if_pos h]

theorem processDealPart_tracked (env : GatewayEnv) (tracked : TrackerB)
    (deal : Deal) (b : Bool) (h : trackerGet tracked deal.id = some b) :
    processDealPart env tracked deal =
      if b then tracked
      else
        if dealAdjustResult priceIncrement env deal.fields then
          trackerSet tracked deal.id true
        else tracked := by
  unfold processDealPart
  have hnone : (trackerGet tracked deal.id).isNone = false := by
    rw [h]
    rfl
  rw [hnone]
  simp only [Bool.and_false, Bool.false_eq_true, if_false, h]
  cases b with
  | false => simp
  | true => simp

theorem tracePrice_succ (increment target : ℚ) (outcomes : Nat → MutationResult)
    (p0 : ℚ) (n : Nat) :
    tracePrice increment target outcomes p0 (n + 1) =
      ((incrementVariantPrice increment
          ⟨"variant", some (tracePrice increment target outcomes p0 n), some target⟩
          (outcomes n)).postPrice).getD (tracePrice increment target outcomes p0 n) := rfl

theorem mutation_bounds (increment p target m : ℚ) (vid : String)
    (o : MutationResult) (hinc : 0 ≤ increment) (hp : p ≤ target)
    (hm : (incrementVariantPrice increment ⟨vid, some p, some target⟩ o).mutation
      = some m) : p ≤ m ∧ m ≤ target := by
  rw [incrementVariantPrice_numeric] at hm
  by_cases h : p < target
  · have hmut : (stepNumeric increment p target o).mutation
        = some (nextPrice increment p target) := by
      by_cases ho : o = MutationResult.ok
      · subst ho
        rw [stepNumeric_ok _ _ _ h]
      · rw [stepNumeric_fail _ _ _ _ h ho]
    rw [hmut] at hm
    injection hm with hm
    subst hm
    exact ⟨le_nextPrice _ _ _ hinc hp, nextPrice_le _ _ _⟩
  · rw [stepNumeric_of_not_lt _ _ _ _ h] at hm
    exact absurd hm (by simp)

theorem postPrice_bounds (increment p target : ℚ) (o : MutationResult)
    (hinc : 0 ≤ increment) (hp : p ≤ target) :
    p ≤ ((incrementVariantPrice increment ⟨"variant", some p, some target⟩
          o).postPrice).getD p
  ∧ ((incrementVariantPrice increment ⟨"variant", some p, some target⟩
          o).postPrice).getD p ≤ target := by
  rw [incrementVariantPrice_numeric]
  by_cases h : p < target
  · by_cases ho : o = MutationResult.ok
    · subst ho
      rw [stepNumeric_ok _ _ _ h]
      simp only [Option.getD_some]
      exact ⟨le_nextPrice _ _ _ hinc hp, nextPrice_le _ _ _⟩
    · rw [stepNumeric_fail _ _ _ _ h ho]
      simp only [Option.getD_some]
      exact ⟨le_rfl, hp⟩
  · rw [stepNumeric_of_not_lt _ _ _ _ h]
    simp only [Option.getD_some]
    exact ⟨le_rfl, hp⟩

theorem cents_round2 {q : ℚ} (h : Cents q) : round2 q = q := by
  obtain ⟨n, rfl⟩ := h
  show ((round ((n : ℚ) / 100 * 100) : ℤ) : ℚ) / 100 = (n : ℚ) / 100
  rw [div_mul_cancel₀ ((n : ℚ)) (by norm_num : (100 : ℚ) ≠ 0), round_intCast]

theorem cents_add {a b : ℚ} (ha : Cents a) (hb : Cents b) : Cents (a + b) := by
  obtain ⟨m, rfl⟩ := ha
  obtain ⟨n, rfl⟩ := hb
  refine ⟨m + n, ?_⟩
  push_cast
  ring

theorem cents_min {a b : ℚ} (ha : Cents a) (hb : Cents b) : Cents (min a b) := by
  rcases le_total a b with h | h
  · rw [min_eq_left h]
    exact ha
  · rw [min_eq_right h]
    exact hb

theorem cents_nextPrice {increment cur cmp : ℚ} (hc : Cents cur)
    (hm : Cents cmp) (hi : Cents increment) :
    Cents (nextPrice increment cur cmp) := by
  unfold nextPrice
  split
  · exact hm
  · exact cents_min (cents_add hc hi) hm

theorem processDealPart_untracked (env : GatewayEnv) (tp : TrackerB) (d : Deal)
    (htp : trackerGet tp d.id = none) :
    processDealPart env tp d =
      if decide (fieldValue d.fields "wtf_pricing" = some "true")
          && startTimeOk env d.fields then
        (if dealAdjustResult priceIncrement env d.fields then
          trackerSet (trackerSet tp d.id false) d.id true
         else trackerSet tp d.id false)
      else tp := by
  unfold processDealPart
  rw [htp]
  simp only [Option.isNone_none, Bool.and_true]
  by_cases hel : (decide (fieldValue d.fields "wtf_pricing" = some "true")
      && startTimeOk env d.fields) = true
  · rw [if_pos hel, if_pos hel, if_pos (trackerGet_set_self tp d.id false)]
  · rw [if_neg hel, if_neg hel, if_neg]
    rw [htp]
    exact fun hx => Option.noConfusion hx

theorem all_false_of_mem {α : Type} (p : α → Bool) (l : List α) (x : α)
    (hx : x ∈ l) (hpx : p x = false) : l.all p = false := by
  cases hall : l.all p
  · rfl
  · have hpt := List.all_eq_true.mp hall x hx
    rw [hpx] at hpt
    exact Bool.noConfusion hpt

/-! ## Claim theorems -/

/-- C1: for every variant input, the Stepper satisfies its reference
contract: if `currentPrice >= compareAtPrice` it issues no price-update
mutation and returns `(currentPrice, true)`; otherwise, with
`remaining = compareAtPrice - currentPrice`, the price sent in the mutation
is exactly `compareAtPrice` when `remaining < increment`, and otherwise is
`currentPrice + increment`, capped so it never exceeds `compareAtPrice`. -/
theorem stepper_reference_contract (increment cur cmp : ℚ) (vid : String)
    (o : MutationResult) :
    (cmp ≤ cur →
      incrementVariantPrice increment ⟨vid, some cur, some cmp⟩ o =
        { mutation := none, isComplete := true, postPrice := some cur })
  ∧ (cur < cmp →
      ∃ m, (incrementVariantPrice increment ⟨vid, some cur, some cmp⟩ o).mutation
            = some m
        ∧ (cmp - cur < increment → m = cmp)
        ∧ (¬ cmp - cur < increment → m = cur + increment ∧ m ≤ cmp)) := by
  constructor
  · intro h
    rw [incrementVariantPrice_numeric, stepNumeric_of_not_lt _ _ _ _ (not_lt.mpr h)]
  · intro h
    refine ⟨nextPrice increment cur cmp, ?_, ?_, ?_⟩
    · rw [incrementVariantPrice_numeric]
      by_cases ho : o = MutationResult.ok
      · subst ho
        rw [stepNumeric_ok _ _ _ h]

      · rw [stepNumeric_fail _ _ _ _ h ho]
    · intro hrem
      exact nextPrice_of_lt_increment increment cur cmp hrem
    · intro hrem
      exact ⟨nextPrice_of_increment_le increment cur cmp hrem,
        nextPrice_le increment cur cmp⟩

/-- Witness for C1: at `(100, 100)` the Stepper issues no mutation and
returns `(100, true)`; at `(80, 100)` with increment `10` it sends `90`. -/
theorem stepper_reference_contract_witness :
    incrementVariantPrice 10 ⟨"v", some 100, some 100⟩ MutationResult.ok =
      { mutation := none, isComplete := true, postPrice := some 100 }
  ∧ (incrementVariantPrice 10 ⟨"v", some 80, some 100⟩ MutationResult.ok).mutation
      = some 90 := by
  constructor
  · exact (stepper_reference_contract 10 100 100 "v" MutationResult.ok).1 le_rfl
  · obtain ⟨m, hm, hsnap, hstep⟩ :=
      (stepper_reference_contract 10 80 100 "v" MutationResult.ok).2 (by norm_num)
    have h90 : m = 90 := by
      have hadd := (hstep (by norm_num)).1
      rw [hadd]
      norm_num
    rw [hm, h90]

/-- C9: for a variant with current price 80.00 and compare-at price 100.00
under increment 9.99, with every mutation succeeding, the Stepper issues
89.99 on the first cycle, 99.98 on the second, and 100.00 on the third
(remaining 0.02 < 9.99, snap to target), with `isComplete` true exactly on
the third cycle. -/
theorem example_80_to_100_three_cycles :
    (incrementVariantPrice priceIncrement ⟨"v", some 80, some 100⟩
        MutationResult.ok).mutation = some (8999 / 100)
  ∧ (incrementVariantPrice priceIncrement ⟨"v", some 80, some 100⟩
        MutationResult.ok).isComplete = false
  ∧ (incrementVariantPrice priceIncrement ⟨"v", some (8999 / 100), some 100⟩
        MutationResult.ok).mutation = some (9998 / 100)
  ∧ (incrementVariantPrice priceIncrement ⟨"v", some (8999 / 100), some 100⟩
        MutationResult.ok).isComplete = false
  ∧ (incrementVariantPrice priceIncrement ⟨"v", some (9998 / 100), some 100⟩
        MutationResult.ok).mutation = some 100
  ∧ (incrementVariantPrice priceIncrement ⟨"v", some (9998 / 100), some 100⟩
        MutationResult.ok).isComplete = true
  ∧ tracePrice priceIncrement 100 (fun _ => MutationResult.ok) 80 1 = 8999 / 100
  ∧ tracePrice priceIncrement 100 (fun _ => MutationResult.ok) 80 2 = 9998 / 100
  ∧ tracePrice priceIncrement 100 (fun _ => MutationResult.ok) 80 3 = 100 := by
  have h1 : tracePrice priceIncrement 100 (fun _ => MutationResult.ok) 80 1
      = 8999 / 100 := by
    rw [show (1 : Nat) = 0 + 1 from rfl, tracePrice_succ]
    norm_num [tracePrice, incrementVariantPrice, stepNumeric, nextPrice, priceIncrement]
  have h2 : tracePrice priceIncrement 100 (fun _ => MutationResult.ok) 80 2
      = 9998 / 100 := by
    rw [show (2 : Nat) = 1 + 1 from rfl, tracePrice_succ, h1]
    norm_num [incrementVariantPrice, stepNumeric, nextPrice, priceIncrement]
  have h3 : tracePrice priceIncrement 100 (fun _ => MutationResult.ok) 80 3
      = 100 := by
    rw [show (3 : Nat) = 2 + 1 from rfl, tracePrice_succ, h2]
    norm_num [incrementVariantPrice, stepNumeric, nextPrice, priceIncrement]
  refine ⟨?_, ?_, ?_, ?_, ?_, ?_, h1, h2, h3⟩
  all_goals norm_num [incrementVariantPrice, stepNumeric, nextPrice, priceIncrement]

/-- C10: for every variant whose price string or compare-at-price string does
not parse as a number (`parseFloat` yields `NaN`, modelled as `none`), the
Stepper issues no mutation and returns `true`, so the variant counts as
complete toward the deal's completion aggregation. -/
theorem nan_price_counts_complete (increment : ℚ) (v : Variant)
    (o : MutationResult) (h : v.price = none ∨ v.compareAtPrice = none) :
    (incrementVariantPrice increment v o).mutation = none
  ∧ (incrementVariantPrice increment v o).isComplete = true
  ∧ (∀ (product : Product) (outcomes : String → MutationResult),
        product.variants = [v] →
        adjustProductPrices increment (FetchResult.ok product) outcomes = true) := by
  obtain ⟨vid, vp, vc⟩ := v
  have hstep : ∀ o' : MutationResult,
      incrementVariantPrice increment ⟨vid, vp, vc⟩ o' =
        { mutation := none, isComplete := true, postPrice := vp } := by
    intro o'
    cases vp with
    | none =>
        cases vc with
        | none => rfl
        | some cmp => rfl
    | some cur =>
        cases vc with
        | none => rfl
        | some cmp =>
            rcases h with h | h
            · exact absurd h (by simp)
            · exact absurd h (by simp)
  refine ⟨?_, ?_, ?_⟩
  · rw [hstep o]
  · rw [hstep o]
  · intro product outcomes hv
    rw [adjustProductPrices_ok, hv]
    simp [hstep]

/-- Witness for C10: a variant with an unparsable price string. -/
theorem nan_price_counts_complete_witness :
    (incrementVariantPrice 10 ⟨"v", none, some 100⟩ MutationResult.ok).mutation = none
  ∧ (incrementVariantPrice 10 ⟨"v", none, some 100⟩ MutationResult.ok).isComplete
      = true := by
  have h := nan_price_counts_complete 10 ⟨"v", none, some 100⟩ MutationResult.ok
    (Or.inl rfl)
  exact ⟨h.1, h.2.1⟩

/-- C2: for every variant under management whose current price does not
exceed its compare-at price, across any sequence of polling cycles the price
is non-decreasing and never exceeds the compare-at price, and every price
value the engine writes in a mutation is at least the price it read that
cycle and at most the compare-at price.  Both configured increments (the
literal `10` of `src/index.js` and `priceIncrement = 9.99` of
`src/unnamed/part_000`) are positive, so the statement covers both engines. -/
theorem price_recovery_monotonic (increment target p0 : ℚ)
    (outcomes : Nat → MutationResult) (hinc : 0 < increment) (h0 : p0 ≤ target) :
    ((0 : ℚ) < 10 ∧ 0 < priceIncrement)
  ∧ (∀ n, tracePrice increment target outcomes p0 n ≤ target)
  ∧ (∀ n, tracePrice increment target outcomes p0 n
        ≤ tracePrice increment target outcomes p0 (n + 1))
  ∧ (∀ (p m : ℚ) (vid : String) (o : MutationResult), p ≤ target →
      (incrementVariantPrice increment ⟨vid, some p, some target⟩ o).mutation
          = some m →
      p ≤ m ∧ m ≤ target) := by
  have hbound : ∀ n, tracePrice increment target outcomes p0 n ≤ target := by
    intro n
    induction n with
    | zero => exact h0
    | succ k ih =>
        rw [tracePrice_succ]
        exact (postPrice_bounds increment
          (tracePrice increment target outcomes p0 k) target (outcomes k)
          hinc.le ih).2
  refine ⟨⟨by norm_num, by norm_num [priceIncrement]⟩, hbound, ?_, ?_⟩
  · intro n
    rw [tracePrice_succ]
    exact (postPrice_bounds increment
      (tracePrice increment target outcomes p0 n) target (outcomes n)
      hinc.le (hbound n)).1
  · intro p m vid o hp hm
    exact mutation_bounds increment p target m vid o hinc.le hp hm

/-- Witness for C2: the managed variant `(80, 100)` under increment 10. -/
theorem price_recovery_monotonic_witness :
    tracePrice 10 100 (fun _ => MutationResult.ok) 80 0 ≤ 100
  ∧ tracePrice 10 100 (fun _ => MutationResult.ok) 80 0
      ≤ tracePrice 10 100 (fun _ => MutationResult.ok) 80 1 := by
  have h := price_recovery_monotonic 10 100 80 (fun _ => MutationResult.ok)
    (by norm_num) (by norm_num)
  exact ⟨h.2.1 0, h.2.2.1 0⟩

/-- C7: for every variant on which a mutation is issued and succeeds, the
Stepper's `isComplete` result is true if and only if the post-mutation price
equals the compare-at price, where (for the two-decimal amounts the gateway
serves) the comparison is unaffected by — i.e. tolerates — the two-decimal
rounding applied by the `toFixed(2)` formatting step. -/
theorem completion_equality_tolerates_rounding (increment cur cmp : ℚ)
    (vid : String) (hc : Cents cur) (hm : Cents cmp) (hi : Cents increment)
    (hlt : cur < cmp) :
    ((incrementVariantPrice increment ⟨vid, some cur, some cmp⟩
        MutationResult.ok).isComplete = true
      ↔ round2 (((incrementVariantPrice increment ⟨vid, some cur, some cmp⟩
            MutationResult.ok).postPrice).getD cur) = round2 cmp) := by
  rw [incrementVariantPrice_numeric, stepNumeric_ok _ _ _ hlt]
  simp only [Option.getD_some]
  rw [cents_round2 (cents_nextPrice hc hm hi), cents_round2 hm]
  constructor
  · intro h
    exact of_decide_eq_true h
  · intro h
    exact decide_eq_true h

/-- Witness for C7: the snap step `99.98 → 100.00` under increment 9.99. -/
theorem completion_equality_tolerates_rounding_witness :
    ((incrementVariantPrice priceIncrement ⟨"v", some (9998 / 100), some 100⟩
        MutationResult.ok).isComplete = true
      ↔ round2 (((incrementVariantPrice priceIncrement
            ⟨"v", some (9998 / 100), some 100⟩
            MutationResult.ok).postPrice).getD (9998 / 100)) = round2 100) :=
  completion_equality_tolerates_rounding priceIncrement (9998 / 100) 100 "v"
    ⟨9998, by norm_num⟩ ⟨10000, by norm_num⟩ ⟨999, by norm_num [priceIncrement]⟩
    (by norm_num)

/-- C5: for every product, `adjustProductPrices` returns true if and only if
every variant of the product has reached its target in that pass (results
aggregated with logical AND, so one incomplete variant makes the result
false), and it returns false whenever the product fetch fails with a
transport fault or a GraphQL-level error payload. -/
theorem adjust_product_prices_contract (increment : ℚ)
    (fetch : FetchResult Product) (outcomes : String → MutationResult)
    (hnum : ∀ p, fetch = FetchResult.ok p → ∀ v ∈ p.variants,
      (∃ c, v.price = some c) ∧ (∃ t, v.compareAtPrice = some t)) :
    (∀ p, fetch = FetchResult.ok p →
      (adjustProductPrices increment fetch outcomes = true ↔
        ∀ v ∈ p.variants, reachedTarget increment v (outcomes v.id)))
  ∧ (fetch = FetchResult.graphqlErrors →
      adjustProductPrices increment fetch outcomes = false)
  ∧ (fetch = FetchResult.transportError →
      adjustProductPrices increment fetch outcomes = false) := by
  refine ⟨?_, ?_, ?_⟩
  · intro p hp
    subst hp
    rw [adjustProductPrices_ok, List.all_eq_true]
    constructor
    · intro h v hv
      obtain ⟨⟨c, hc⟩, ⟨tgt, htg⟩⟩ := hnum p rfl v hv
      exact (isComplete_iff_reachedTarget increment v (outcomes v.id) c tgt
        hc htg).mp (h v hv)
    · intro h v hv
      obtain ⟨⟨c, hc⟩, ⟨tgt, htg⟩⟩ := hnum p rfl v hv
      exact (isComplete_iff_reachedTarget increment v (outcomes v.id) c tgt
        hc htg).mpr (h v hv)
  · intro hp
    subst hp
    rfl
  · intro hp
    subst hp
    rfl

/-- A one-variant product, already at its target, used by witnesses. -/
def prodW : Product := ⟨"p1", "title", [⟨"v1", some 100, some 100⟩]⟩

/-- Witness for C5: a product whose single variant is at its target yields
`true`; a GraphQL-level error payload yields `false`. -/
theorem adjust_product_prices_contract_witness :
    adjustProductPrices 10 (FetchResult.ok prodW) (fun _ => MutationResult.ok) = true
  ∧ adjustProductPrices 10 FetchResult.graphqlErrors
      (fun _ => MutationResult.ok) = false := by
  constructor
  · refine ((adjust_product_prices_contract 10 (FetchResult.ok prodW)
      (fun _ => MutationResult.ok) ?_).1 prodW rfl).mpr ?_
    · intro p hp v hv
      injection hp with hp
      subst hp
      simp only [prodW, List.mem_singleton] at hv
      subst hv
      exact ⟨⟨100, rfl⟩, ⟨100, rfl⟩⟩
    · intro v hv
      simp only [prodW, List.mem_singleton] at hv
      subst hv
      refine ⟨100, 100, rfl, ?_, le_rfl⟩
      norm_num [incrementVariantPrice, stepNumeric]
  · exact (adjust_product_prices_contract 10 FetchResult.graphqlErrors
      (fun _ => MutationResult.ok)
      (fun p hp => FetchResult.noConfusion hp)).2.1 rfl

/-- C6: for every variant whose price-update mutation fails (transport error
or field-level `userErrors`), the Stepper returns `(currentPrice, false)`
with no local state change; every sibling variant of the same product is
still processed in the same pass (the step list has an entry for every
variant, and each entry depends only on that variant's own mutation
outcome); and the Tracker entry for the deal is unchanged by the failure, in
both engine variants. -/
theorem mutation_failure_isolated (increment cur cmp : ℚ) (vid : String)
    (outcome : MutationResult) (hlt : cur < cmp)
    (hfail : outcome ≠ MutationResult.ok) :
    ((incrementVariantPrice increment ⟨vid, some cur, some cmp⟩
          outcome).isComplete = false
      ∧ (incrementVariantPrice increment ⟨vid, some cur, some cmp⟩
          outcome).postPrice = some cur)
  ∧ (∀ (product : Product) (outcomes : String → MutationResult),
        (variantSteps increment product outcomes).length
          = product.variants.length)
  ∧ (∀ (product : Product) (o₁ o₂ : String → MutationResult) (i : Nat)
        (v : Variant),
        product.variants[i]? = some v → o₁ v.id = o₂ v.id →
        (variantSteps increment product o₁)[i]?
          = (variantSteps increment product o₂)[i]?)
  ∧ (∀ (product : Product) (outcomes : String → MutationResult),
        (⟨vid, some cur, some cmp⟩ : Variant) ∈ product.variants →
        outcomes vid = outcome →
        adjustProductPrices increment (FetchResult.ok product) outcomes = false)
  ∧ (∀ (env : GatewayEnv) (t : Finset String) (d : Deal), d.id ∈ t →
        dealAdjustResult 10 env d.fields = false →
        (processDealIndex env t d).tracker = t)
  ∧ (∀ (env : GatewayEnv) (tp : TrackerB) (d : Deal) (b : Bool),
        trackerGet tp d.id = some b →
        dealAdjustResult priceIncrement env d.fields = false →
        processDealPart env tp d = tp) := by
  refine ⟨?_, ?_, ?_, ?_, ?_, ?_⟩
  · rw [incrementVariantPrice_numeric, stepNumeric_fail _ _ _ _ hlt hfail]
    exact ⟨rfl, rfl⟩
  · intro product outcomes
    simp [variantSteps]
  · intro product o₁ o₂ i v hv hid
    unfold variantSteps
    rw [List.getElem?_map, List.getElem?_map, hv]
    simp only [Option.map_some']
    rw [hid]
  · intro product outcomes hv hout
    rw [adjustProductPrices_ok]
    have hx : (fun w : Variant =>
        (incrementVariantPrice increment w (outcomes w.id)).isComplete)
        (⟨vid, some cur, some cmp⟩ : Variant) = false := by
      show (incrementVariantPrice increment ⟨vid, some cur, some cmp⟩
        (outcomes vid)).isComplete = false
      rw [hout, incrementVariantPrice_numeric, stepNumeric_fail _ _ _ _ hlt hfail]
    exact all_false_of_mem _ _ _ hv hx
  · intro env t d hd hadj
    rw [processDealIndex_tracked env t d hd, hadj]
    simp
  · intro env tp d b hb hadj
    rw [processDealPart_tracked env tp d b hb, hadj]
    cases b with
    | false => simp
    | true => simp

/-- Witness for C6: a `userErrors` payload on the `(80, 100)` step. -/
theorem mutation_failure_isolated_witness :
    (incrementVariantPrice 10 ⟨"v", some 80, some 100⟩
        MutationResult.userErrors).isComplete = false
  ∧ (incrementVariantPrice 10 ⟨"v", some 80, some 100⟩
        MutationResult.userErrors).postPrice = some 80 :=
  (mutation_failure_isolated 10 80 100 "v" MutationResult.userErrors
    (by norm_num) (fun hx => MutationResult.noConfusion hx)).1

/-- C3 (amended): re-processing a deal record while the deal is still
tracked never re-triggers the start transition: in the `src/index.js` engine
no `updateDeal` start-marker mutation is issued and the tracked set is only
ever left alone or completed (never re-inserted); in the
`src/unnamed/part_000` engine the existing entry keeps its flag or moves to
the completed flag `true`, a completed entry is never reset, and the entry
is never dropped — so in that engine, where entries are never removed, the
start transition happens at most once over any whole run.  (Without the
still-tracked hypothesis the property fails in `src/index.js`: see the
counterexample where a completed-and-removed deal whose start-marker write
did not persist is re-started on the next cycle.) -/
theorem start_transition_at_most_once (env : GatewayEnv) (t : Finset String)
    (tp : TrackerB) (d : Deal) (b : Bool) (ht : d.id ∈ t)
    (htp : trackerGet tp d.id = some b) :
    (processDealIndex env t d).startIssued = false
  ∧ ((processDealIndex env t d).tracker = t
      ∨ (processDealIndex env t d).tracker = t.erase d.id)
  ∧ (trackerGet (processDealPart env tp d) d.id = some b
      ∨ trackerGet (processDealPart env tp d) d.id = some true)
  ∧ (b = true → trackerGet (processDealPart env tp d) d.id = some true)
  ∧ trackerGet (processDealPart env tp d) d.id ≠ none := by
  have hidx := processDealIndex_tracked env t d ht
  have hpart := processDealPart_tracked env tp d b htp
  have hget : trackerGet (processDealPart env tp d) d.id = some b
      ∨ trackerGet (processDealPart env tp d) d.id = some true := by
    rw [hpart]
    cases b with
    | true => simp [htp]
    | false =>
        cases hadj : dealAdjustResult priceIncrement env d.fields with
        | true => simp [trackerGet_set_self]
        | false => simp [htp]
  refine ⟨?_, ?_, hget, ?_, ?_⟩
  · rw [processDealIndex_startIssued, eligibleIndex_of_tracked env t d ht]
  · rw [hidx]
    cases hadj : dealAdjustResult 10 env d.fields with
    | true =>
        right
        simp
    | false =>
        left
        simp
  · intro hb
    subst hb
    rw [hpart]
    simp [htp]
  · rcases hget with hg | hg
    · rw [hg]
      exact fun hx => Option.noConfusion hx
    · rw [hg]
      exact fun hx => Option.noConfusion hx

/-- A gateway environment for witnesses: dates parse to epoch 0, product
fetches fail with a transport fault, mutations succeed. -/
def envW : GatewayEnv :=
  { parseDate := fun _ => some 0
    now := 0
    productFetch := fun _ => FetchResult.transportError
    mutationOutcome := fun _ => MutationResult.ok }

/-- A deal record whose pricing flag is `"true"` and whose start time has
passed, with no remote started marker. -/
def dealW : Deal :=
  ⟨"d1", [("wtf_pricing", "true"), ("start_time", "2024-01-01"), ("product", "p1")]⟩

/-- Witness for C3: the already-tracked deal `"d1"` is not started again. -/
theorem start_transition_at_most_once_witness :
    (processDealIndex envW {"d1"} dealW).startIssued = false
  ∧ trackerGet (processDealPart envW [("d1", false)] dealW) "d1" ≠ none := by
  have h := start_transition_at_most_once envW {"d1"} [("d1", false)] dealW false
    (Finset.mem_singleton.mpr rfl) rfl
  exact ⟨h.1, h.2.2.2.2⟩

/-- A gateway environment whose product fetch succeeds with `prodW`, whose
single variant is already at its compare-at price, so the adjustment pass
reports the deal complete. -/
def envC4 : GatewayEnv :=
  { parseDate := fun _ => some 0
    now := 0
    productFetch := fun _ => FetchResult.ok prodW
    mutationOutcome := fun _ => MutationResult.ok }

/-- Counterexample for C4: in the `src/unnamed/part_000` engine, when the
Orchestrator pass reports every variant at its compare-at price, the deal's
Tracker entry is NOT removed — it is kept, with its completion flag set to
`true` — so "transitions to Completed — its entry is removed from the
Tracker — iff ..." fails on this engine. -/
theorem completed_entry_retained_counterexample :
    dealAdjustResult priceIncrement envC4 dealW.fields = true
  ∧ processDealPart envC4 [("d1", false)] dealW = [("d1", true)]
  ∧ trackerGet (processDealPart envC4 [("d1", false)] dealW) "d1" = some true := by
  have hadj : dealAdjustResult priceIncrement envC4 dealW.fields = true := by
    norm_num [dealAdjustResult, fieldValue, dealW, envC4, adjustProductPrices,
      variantSteps, prodW, incrementVariantPrice, stepNumeric, nextPrice]
  have hrun : processDealPart envC4 [("d1", false)] dealW = [("d1", true)] := by
    rw [processDealPart_tracked envC4 [("d1", false)] dealW false rfl, hadj]
    simp [trackerSet, dealW]
  refine ⟨hadj, hrun, ?_⟩
  rw [hrun]
  rfl

/-- C4 (amended): for every tracked deal, the deal transitions to Completed
if and only if the Orchestrator pass of that cycle reports every variant of
its Product at its compare-at price; in the `src/index.js` engine the
Tracker entry is then removed, while in the `src/unnamed/part_000` engine
the entry is retained with its completion flag set to `true`; in every other
case the Tracker entry for the deal is unchanged by the cycle. -/
theorem completion_characterization (env : GatewayEnv) (t : Finset String)
    (tp : TrackerB) (d : Deal) (ht : d.id ∈ t)
    (htp : trackerGet tp d.id = some false) :
    (dealAdjustResult 10 env d.fields = true →
      (processDealIndex env t d).tracker = t.erase d.id)
  ∧ (dealAdjustResult 10 env d.fields = false →
      (processDealIndex env t d).tracker = t)
  ∧ (dealAdjustResult priceIncrement env d.fields = true →
      processDealPart env tp d = trackerSet tp d.id true
      ∧ trackerGet (processDealPart env tp d) d.id = some true)
  ∧ (dealAdjustResult priceIncrement env d.fields = false →
      processDealPart env tp d = tp) := by
  have hidx := processDealIndex_tracked env t d ht
  have hpart := processDealPart_tracked env tp d false htp
  refine ⟨?_, ?_, ?_, ?_⟩
  · intro ha
    rw [hidx, ha]
    simp
  · intro ha
    rw [hidx, ha]
    simp
  · intro ha
    rw [hpart, ha]
    simp [trackerGet_set_self]
  · intro ha
    rw [hpart, ha]
    simp

/-- Witness for C4 (amended): the completing cycle removes the entry in the
set-based engine and flags it `true` in the map-based engine. -/
theorem completion_characterization_witness :
    (processDealIndex envC4 {"d1"} dealW).tracker
      = ({"d1"} : Finset String).erase "d1"
  ∧ processDealPart envC4 [("d1", false)] dealW
      = trackerSet [("d1", false)] "d1" true := by
  have h := completion_characterization envC4 {"d1"} [("d1", false)] dealW
    (Finset.mem_singleton.mpr rfl) rfl
  have hadj10 : dealAdjustResult 10 envC4 dealW.fields = true := by
    norm_num [dealAdjustResult, fieldValue, dealW, envC4, adjustProductPrices,
      variantSteps, prodW, incrementVariantPrice, stepNumeric, nextPrice]
  have hadjP : dealAdjustResult priceIncrement envC4 dealW.fields = true := by
    norm_num [dealAdjustResult, fieldValue, dealW, envC4, adjustProductPrices,
      variantSteps, prodW, incrementVariantPrice, stepNumeric, nextPrice]
  exact ⟨h.1 hadj10, (h.2.2.1 hadjP).1⟩

/-- A deal record with pricing flag `"true"`, a past start time, and a
remote started marker already set to `"true"`. -/
def dealC8 : Deal :=
  ⟨"d2", [("wtf_pricing", "true"), ("start_time", "2024-01-01"),
    ("wtf_pricing_started", "true"), ("product", "p1")]⟩

/-- Counterexample for C8: in the `src/index.js` engine a deal whose pricing
flag is `"true"`, whose start time has passed and which is not yet tracked
does NOT transition from Unseen to tracked when its `wtf_pricing_started`
field equals `"true"` — an additional field condition the claim denies. -/
theorem started_marker_blocks_transition_counterexample :
    fieldValue dealC8.fields "wtf_pricing" = some "true"
  ∧ startTimeOk envW dealC8.fields = true
  ∧ ("d2" ∉ (∅ : Finset String))
  ∧ (processDealIndex envW ∅ dealC8).startIssued = false
  ∧ (processDealIndex envW ∅ dealC8).tracker = ∅ := by
  refine ⟨rfl, rfl, by simp, ?_, ?_⟩
  · rw [processDealIndex_startIssued]
    rfl
  · unfold processDealIndex
    have hel : eligibleIndex envW (∅ : Finset String) dealC8 = false := rfl
    rw [hel]
    simp

/-- C8 (amended): a deal record transitions from Unseen to tracked exactly
when its pricing-mode flag field equals `"true"`, its start timestamp is at
or before the current time, and the deal is not yet tracked — and, in the
`src/index.js` engine only, additionally its `wtf_pricing_started` field is
not `"true"`.  The `src/unnamed/part_000` engine has no marker condition. -/
theorem unseen_to_tracked_characterization (env : GatewayEnv)
    (t : Finset String) (tp : TrackerB) (d : Deal) (ht : d.id ∉ t)
    (htp : trackerGet tp d.id = none) :
    ((processDealIndex env t d).startIssued = true ↔
      (fieldValue d.fields "wtf_pricing" = some "true"
        ∧ startTimeOk env d.fields = true
        ∧ fieldValue d.fields "wtf_pricing_started" ≠ some "true"))
  ∧ (trackerGet (processDealPart env tp d) d.id ≠ none ↔
      (fieldValue d.fields "wtf_pricing" = some "true"
        ∧ startTimeOk env d.fields = true)) := by
  constructor
  · rw [processDealIndex_startIssued]
    unfold eligibleIndex
    simp [ht, and_assoc]
  · rw [processDealPart_untracked env tp d htp]
    by_cases hel : (decide (fieldValue d.fields "wtf_pricing" = some "true")
        && startTimeOk env d.fields) = true
    · rw [if_pos hel]
      rw [Bool.and_eq_true, decide_eq_true_eq] at hel
      constructor
      · intro _
        exact hel
      · intro _
        by_cases hadj : dealAdjustResult priceIncrement env d.fields = true
        · rw [if_pos hadj, trackerGet_set_self]
          exact fun hx => Option.noConfusion hx
        · rw [if_neg hadj, trackerGet_set_self]
          exact fun hx => Option.noConfusion hx
    · rw [if_neg hel]
      rw [htp]
      constructor
      · intro hx
        exact absurd rfl hx
      · intro hx
        rw [Bool.and_eq_true, decide_eq_true_eq] at hel
        exact absurd hx hel

/-- Witness for C8 (amended): a deal with flag `"true"`, a past start time
and no started marker does transition in both engines. -/
theorem unseen_to_tracked_characterization_witness :
    (processDealIndex envW ∅ dealW).startIssued = true
  ∧ trackerGet (processDealPart envW [] dealW) dealW.id ≠ none := by
  have h := unseen_to_tracked_characterization envW ∅ [] dealW
    (by simp) rfl
  constructor
  · exact h.1.mpr ⟨rfl, rfl, by simp [dealW, fieldValue]⟩
  · exact h.2.mpr ⟨rfl, rfl⟩

/-- Counterexample for C3: in the `src/index.js` engine the start transition
can happen twice in one run.  `updateDeal` catches its own failures (lines
146–157), so a failed start-marker write still leaves the deal tracked and
the remote `wtf_pricing_started` field unset — on a later fetch the deal
record is unchanged, which is the situation modelled by presenting the same
record (`dealW`, with no started marker) on both cycles.  With every variant
of the product already at its compare-at price, cycle 1 starts the deal
(`startIssued = true`) and completes it in the same pass, erasing the entry;
cycle 2 re-fetches the unchanged record against the now-empty tracked set
and issues the start mutation a second time. -/
theorem start_reissued_after_failed_marker_counterexample :
    (processDealIndex envC4 ∅ dealW).startIssued = true
  ∧ (processDealIndex envC4 ∅ dealW).tracker = ∅
  ∧ (processDealIndex envC4 (processDealIndex envC4 ∅ dealW).tracker
        dealW).startIssued = true := by
  have hadj : dealAdjustResult 10 envC4 dealW.fields = true := by
    norm_num [dealAdjustResult, fieldValue, dealW, envC4, adjustProductPrices,
      variantSteps, prodW, incrementVariantPrice, stepNumeric, nextPrice]
  have hel : eligibleIndex envC4 (∅ : Finset String) dealW = true := rfl
  have hstart : (processDealIndex envC4 ∅ dealW).startIssued = true := by
    rw [processDealIndex_startIssued]
    exact hel
  have htracker : (processDealIndex envC4 ∅ dealW).tracker = ∅ := by
    unfold processDealIndex
    rw [hel]
    simp [hadj, Finset.erase_insert, Finset.not_mem_empty]
  refine ⟨hstart, htracker, ?_⟩
  rw [htracker]
  exact hstart
